import Mathlib

/-!
Verification development for the RBS design search engine of `app.py`
(repository `RBS_cal`).

The Python module is shallowly embedded as follows:

* Python floats that can only carry finite values or `+inf` (candidate
  errors) are modelled by `Flt`, rationals extended with one infinity.
  Other float quantities (temperatures, weights, expressions) are plain `ℚ`.
* The transcendental routines `math.log10` and `math.exp` are kept as
  parameters of the model (`Env.log10`, `Env.expf`): the claims under
  check concern branch structure and bookkeeping, not floating-point
  approximation of logarithms.
* The pseudo-random generator `random.Random` is modelled by `RngS`, a
  stream of natural draws consumed in program order; each primitive
  (`randint`, `randrange`, `choice`, `choices`, `random`) maps one draw
  into its range.  Theorems quantify over all streams.
* The external oracle adapter `run_ostir_for_start_position` is the
  opaque collaborator of the spec (§6): a function from the assembled
  full sequence and the expected 1-based start position to an optional
  row; rows carry the already-coerced `start_position`, `start_codon`
  and `expression` fields.
* Mutable state threading (the `evaluated` cache, `top_candidates`,
  oracle-call counting) is explicit: `EvalState`.  The oracle-call
  counter is not part of the Python return value; it is exposed by the
  model so that at-most-once properties can be stated.
* `print`, the progress callback, and the log strings of
  `restart_log` are I/O and are dropped (restart log entries keep the
  data: index, sequence, inferred spacing).
-/

namespace RBSCal

/-- Python float values arising as candidate errors: a finite rational or
positive infinity (`float("inf")`). -/
inductive Flt where
  | fin : ℚ → Flt
  | inf : Flt
deriving DecidableEq, Repr

/-- Strict comparison on `Flt` (mirrors `<` on Python floats restricted to
finite values and `+inf`). -/
def Flt.blt : Flt → Flt → Bool
  | .fin a, .fin b => a < b
  | .fin _, .inf => true
  | .inf, _ => false

/-- Mirrors `math.isfinite` on the modelled values. -/
def Flt.isFinite : Flt → Bool
  | .fin _ => true
  | .inf => false

/-- Subtraction of a finite value, as used for `delta = candidate_error -
current_error` (only reached when `current_error` is finite). -/
def Flt.subFin : Flt → ℚ → Flt
  | .fin a, b => .fin (a - b)
  | .inf, _ => .inf

/-- Minimum on `Flt` (specification-side helper). -/
def Flt.fmin (a b : Flt) : Flt := if Flt.blt b a then b else a

/-- The four rejection labels of `ensure_cache` (`app.py` lines 1621-1697).
Constructor names follow the strings stored in `reject_reason`; the spec
refers to `no_valid_ostir_row` as `no_valid_oracle_row`, its abstract name
for the same condition. -/
inductive RejectReason where
  | no_valid_ostir_row
  | non_positive_expression
  | start_codon_mismatch
  | start_position_mismatch
deriving DecidableEq, Repr

/-- An oracle result row.  Fields hold the values after `_coerce_float`
(`none` models a missing/unparsable value) and `str(...)` coercion. -/
structure Row where
  start_position : Option ℚ
  start_codon : String
  expression : Option ℚ
deriving DecidableEq, Repr

/-- A trial RBS fragment together with its evaluation outcome (the
candidate dictionaries built in `ensure_cache`).  The debugging
pass-through field `row` of the Python dict is omitted; no claim
mentions it. -/
structure Candidate where
  rbs_sequence : String
  full_sequence : String
  start_position : Option ℚ
  start_codon : String
  predicted_expression : ℚ
  error : Flt
  rejected : Bool
  reject_reason : Option RejectReason
deriving DecidableEq, Repr

/-- The mutable evaluation state of one run: the `evaluated` memo table
(association list keyed by the RBS fragment), the `top_candidates`
accumulator, and the number of oracle invocations performed so far. -/
structure EvalState where
  evaluated : List (String × Candidate)
  top_candidates : List Candidate
  oracle_calls : ℕ
deriving DecidableEq, Repr

/-- Per-run evaluation context: the fixed data `ensure_cache` closes over,
plus the external collaborators. -/
structure EvalCtx where
  pre_seq : String
  post_seq : String
  expected_start : ℕ
  start_codon : String
  target_log : ℚ
  oracle : String → ℕ → Option Row
  log10 : ℚ → ℚ

/-- Uppercasing by character, mirroring `str.upper` on ASCII sequences. -/
def strUpper (s : String) : String := String.mk (s.data.map Char.toUpper)

/-- Python `int()` truncation toward zero on a finite value. -/
def ratTrunc (q : ℚ) : ℤ := if 0 ≤ q then ⌊q⌋ else -⌊-q⌋

/-- The clamp `max(expr, 1e-12)` of accepted expressions (idealised to the
exact rational 10⁻¹²). -/
def EPS : ℚ := 1 / 1000000000000

/-- Mirrors the local helper `build_invalid_candidate`. -/
def build_invalid_candidate (ctx : EvalCtx) (rbs_seq full_seq : String)
    (reason : RejectReason) (observed_position : Option ℚ)
    (observed_codon : String) : Candidate :=
  { rbs_sequence := rbs_seq
    full_sequence := full_seq
    start_position := observed_position
    start_codon := if observed_codon ≠ "" then observed_codon else strUpper (ctx.post_seq.take 3)
    predicted_expression := 0
    error := .inf
    rejected := true
    reject_reason := some reason }

/-- Mirrors the local helper `ensure_cache` (`app.py` lines 1621-1697):
memoised evaluation of one RBS fragment.  On a miss the oracle is invoked
once and the outcome is classified in priority order: no row →
non-positive expression → start-codon mismatch → start-position mismatch →
accepted.  Accepted candidates are also appended to `top_candidates`. -/
def ensure_cache (ctx : EvalCtx) (st : EvalState) (rbs_seq : String) :
    Candidate × EvalState :=
  match st.evaluated.lookup rbs_seq with
  | some c => (c, st)
  | none =>
    let full_seq := ctx.pre_seq ++ rbs_seq ++ ctx.post_seq
    let expected_pos := ctx.expected_start + rbs_seq.length
    let calls := st.oracle_calls + 1
    match ctx.oracle full_seq expected_pos with
    | none =>
      let invalid := build_invalid_candidate ctx rbs_seq full_seq .no_valid_ostir_row none ""
      (invalid, { st with
        evaluated := (rbs_seq, invalid) :: st.evaluated
        oracle_calls := calls })
    | some row =>
      let reject := fun (reason : RejectReason) =>
        let invalid := build_invalid_candidate ctx rbs_seq full_seq reason
          row.start_position (strUpper row.start_codon)
        (invalid, { st with
          evaluated := (rbs_seq, invalid) :: st.evaluated
          oracle_calls := calls })
      match row.expression with
      | none => reject .non_positive_expression
      | some expr =>
        if expr ≤ 0 then reject .non_positive_expression
        else if strUpper row.start_codon ≠ ctx.start_codon then reject .start_codon_mismatch
        else
          match row.start_position with
          | none => reject .start_position_mismatch
          | some op =>
            if ratTrunc op ≠ (expected_pos : ℤ) then reject .start_position_mismatch
            else
              let predicted := max expr EPS
              let err := |ctx.log10 predicted - ctx.target_log|
              let c : Candidate :=
                { rbs_sequence := rbs_seq
                  full_sequence := full_seq
                  start_position := some (expected_pos : ℚ)
                  start_codon := ctx.start_codon
                  predicted_expression := predicted
                  error := .fin err
                  rejected := false
                  reject_reason := none }
              (c, { st with
                    evaluated := (rbs_seq, c) :: st.evaluated
                    top_candidates := st.top_candidates ++ [c]
                    oracle_calls := calls })

/-- Mirrors the local helper `accept_probability` (`app.py` lines
1747-1752).  `expf` stands for `math.exp`. -/
def accept_probability (expf : ℚ → ℚ) (delta temp : Flt) : ℚ :=
  match temp with
  | .inf => 0
  | .fin t =>
    if t ≤ 0 then 0
    else
      match delta with
      | .inf => 0
      | .fin d => if d ≤ 0 then 1 else expf (-d / t)

/-- The acceptance decision of the search loop (`app.py` lines 1796-1801):
with no finite incumbent, accept exactly the valid finite-error
candidates; otherwise compare the Metropolis probability against the
uniform draw `u` and veto rejected candidates. -/
def accept_decision (expf : ℚ → ℚ) (candidate_error : Flt) (rejected : Bool)
    (current_error : Flt) (temperature : ℚ) (u : ℚ) : Bool :=
  match current_error with
  | .inf => candidate_error.isFinite && !rejected
  | .fin ce =>
    (decide (u ≤ accept_probability expf (candidate_error.subFin ce) (.fin temperature))) && !rejected

/-- The nucleotide alphabet `RBS_NUCLEOTIDES = ("A", "C", "G", "T")`. -/
def RBS_NUCLEOTIDES : List Char := ['A', 'C', 'G', 'T']

/-- The literal Shine-Dalgarno core `DESIGN_SD_CORE = "AGGAGG"`. -/
def DESIGN_SD_CORE : String := "AGGAGG"

/-- A pseudo-random source: a stream of natural draws and a cursor.  Each
primitive of `random.Random` consumes one draw in program order. -/
structure RngS where
  stream : ℕ → ℕ
  idx : ℕ

/-- Consume one raw draw. -/
def RngS.next (r : RngS) : ℕ × RngS := (r.stream r.idx, { r with idx := r.idx + 1 })

/-- Models `rnd.randrange(n)`: a draw mapped into `[0, n)`. -/
def RngS.randrange (r : RngS) (n : ℕ) : ℕ × RngS :=
  let p := r.next
  (p.1 % n, p.2)

/-- Models `rnd.randint(a, b)`: a draw mapped into `[a, b]`. -/
def RngS.randint (r : RngS) (a b : ℕ) : ℕ × RngS :=
  let p := r.next
  (a + p.1 % (b + 1 - a), p.2)

/-- Models `rnd.choice(l)`: a draw mapped to an element of `l` (the default
is only returned for an empty list, which `random.choice` would refuse). -/
def RngS.choice {α : Type} (r : RngS) (l : List α) (dflt : α) : α × RngS :=
  let p := r.next
  (l.getD (p.1 % l.length) dflt, p.2)

/-- Models `rnd.random()`: a draw mapped to a rational in `[0, 1)`. -/
def RngS.random01 (r : RngS) : ℚ × RngS :=
  let p := r.next
  ((p.1 % 1000000 : ℕ) / (1000000 : ℚ), p.2)

/-- First index at which the running sum of the weights exceeds the
threshold (the `bisect` on cumulative weights inside `random.choices`). -/
def pick_index_w : List ℚ → ℚ → ℕ
  | [], _ => 0
  | w :: ws, t => if t < w then 0 else pick_index_w ws (t - w) + 1

/-- Models `rnd.choices(items, weights=weights, k=1)[0]`: the threshold is
`u * total` for a uniform `u`, and the index is capped at `len - 1` as in
`random.choices`. -/
def pick_weighted (items : List String) (weights : List ℚ) (u : ℚ) : String :=
  let total : ℚ := weights.foldr (· + ·) 0
  items.getD (min (pick_index_w weights (u * total)) (items.length - 1)) ""

/-- A run of `k` draws of `rnd.choice(RBS_NUCLEOTIDES)` (the generator
expressions filling the flanks in `random_rbs`). -/
def gen_bases : RngS → ℕ → List Char × RngS
  | rng, 0 => ([], rng)
  | rng, k + 1 =>
    let p := rng.choice RBS_NUCLEOTIDES 'A'
    let q := gen_bases p.2 k
    (p.1 :: q.1, q.2)

/-- Python `s.ljust(n, "A")` followed by the `[:n]` trim applied to it in
`random_rbs` (expressed over the character list). -/
def ljust_trim (s : String) (n : ℕ) : String :=
  String.mk ((s.data ++ List.replicate (n - s.data.length) 'A').take n)

/-- Mirrors `random_rbs` (`app.py` lines 1395-1438).  `min_length` and
`max_length` arrive as Python ints (ℤ) and are clamped to `≥ 4` and
`max ≥ min`; `sd_cores = none` models the `None` default. -/
def random_rbs (rng : RngS) (min_length max_length : ℤ) (seed : String)
    (spacing_min spacing_max : ℕ) (sd_cores : Option (List String)) :
    String × RngS :=
  let minL : ℕ := (max 4 min_length).toNat
  let maxL : ℕ := (max (max 4 min_length) max_length).toNat
  let p := rng.randint minL maxL
  let length := p.1
  let rng1 := p.2
  let cores0 := (sd_cores.getD [DESIGN_SD_CORE]).filter (· ≠ "")
  let cores := if cores0 = [] then [DESIGN_SD_CORE] else cores0
  let feasible := (List.range' spacing_min (spacing_max + 1 - spacing_min)).filter
    (fun spacing => cores.any (fun core => core.length + spacing ≤ length))
  if feasible ≠ [] then
    let q := rng1.choice feasible 0
    let spacing := q.1
    let valid0 := cores.filter (fun core => core.length + spacing ≤ length)
    let valid := if valid0 = [] then [cores.getD 0 ""] else valid0
    let s := q.2.choice valid ""
    let core := s.1
    let core_start := length - core.length - spacing
    let a := gen_bases s.2 core_start
    let b := gen_bases a.2 (length - core_start - core.length)
    (String.mk a.1 ++ core ++ String.mk b.1, b.2)
  else if seed ≠ "" then
    (ljust_trim (seed.take length) length, rng1)
  else
    (ljust_trim (cores.getD 0 "") length, rng1)

/-- The second half of `mutate_rbs` (`app.py` lines 1468-1487), split out
as a helper over the remaining weighted `(move, weight)` pairs `cw`: pick
an action (`choices[0]` when the total weight is non-positive, otherwise a
weighted draw) and apply it. -/
def mutate_rbs_apply (rng : RngS) (sequence : String) (min_length max_length : ℤ)
    (cw : List (String × ℚ)) : (String × String) × RngS :=
  let seq := sequence.data
  let choices := cw.map Prod.fst
  let weights := cw.map Prod.snd
  let total : ℚ := weights.foldr (· + ·) 0
  let aw : String × RngS :=
    if total ≤ 0 then (choices.getD 0 "", rng)
    else
      let p := rng.random01
      (pick_weighted choices weights p.1, p.2)
  let action := aw.1
  let rng1 := aw.2
  if action = "sub" then
    let p := rng1.randrange seq.length
    let idx := p.1
    let replacements := RBS_NUCLEOTIDES.filter (· ≠ seq.getD idx 'A')
    let q := p.2.choice replacements 'A'
    ((String.mk (seq.set idx q.1), "sub"), q.2)
  else if action = "ins" then
    if (seq.length : ℤ) < max_length then
      let p := rng1.randrange (seq.length + 1)
      let q := p.2.choice RBS_NUCLEOTIDES 'A'
      ((String.mk (List.insertIdx p.1 q.1 seq), "ins"), q.2)
    else ((String.mk seq, "noop"), rng1)
  else if action = "del" then
    if (seq.length : ℤ) > min_length then
      let p := rng1.randrange seq.length
      ((String.mk (seq.eraseIdx p.1), "del"), p.2)
    else ((String.mk seq, "noop"), rng1)
  else ((String.mk seq, "noop"), rng1)

/-- Mirrors `mutate_rbs` (`app.py` lines 1441-1487): pick a move type among
substitution / insertion / deletion with the given weights (deletion is
dropped at `min_length`, insertion at `max_length`), apply it, and return
the mutated sequence together with the move tag.  The empty-sequence
branch delegates to `random_rbs` with the module-default spacing window
and cores. -/
def mutate_rbs (rng : RngS) (sequence : String) (min_length max_length : ℤ)
    (sub_weight ins_weight del_weight : ℚ) : (String × String) × RngS :=
  if sequence = "" then
    let p := random_rbs rng min_length max_length "" 5 9 none
    ((p.1, "random"), p.2)
  else
    let seq := sequence.data
    let cw0 : List (String × ℚ) := [("sub", sub_weight), ("ins", ins_weight), ("del", del_weight)]
    let cw1 := if (seq.length : ℤ) ≤ min_length then cw0.filter (fun p => p.1 ≠ "del") else cw0
    let cw := if (seq.length : ℤ) ≥ max_length then cw1.filter (fun p => p.1 ≠ "ins") else cw1
    if cw = [] then ((String.mk seq, "noop"), rng)
    else mutate_rbs_apply rng sequence min_length max_length cw

/-- The env-configurable module constants `DESIGN_*` of `app.py` (lines
43-58).  `defaultConfig` holds the documented defaults. -/
structure Config where
  sd_cores : List String
  spacing_min : ℕ
  spacing_max : ℕ
  restart_patience : ℤ
  accept_window : ℤ
  temperature_init : ℚ
  temperature_min : ℚ
  temperature_max : ℚ

/-- The default values of the `DESIGN_*` constants. -/
def defaultConfig : Config :=
  { sd_cores := ["AGGAGG"]
    spacing_min := 5
    spacing_max := 9
    restart_patience := 100
    accept_window := 20
    temperature_init := 1
    temperature_min := 1 / 10000
    temperature_max := 8 }

/-- External collaborators and numeric model of a run: the oracle adapter,
the `math.log10` and `math.exp` models, the family of seeded generator
streams (`mt seed` models `random.Random(seed)`), and the module
constants. -/
structure Env where
  oracle : String → ℕ → Option Row
  log10 : ℚ → ℚ
  expf : ℚ → ℚ
  mt : ℕ → ℕ → ℕ
  cfg : Config

/-- The arguments of `design_rbs_candidates` (the CLI plumbing arguments
`ostir_binary`, `asd` and `threads` are part of the opaque oracle).
`fresh` models the draw `random.randint(1, 2**31 - 1)` taken from the
process-global generator when no usable seed is supplied. -/
structure DesignParams where
  pre_seq : String
  post_seq : String
  target_expression : ℚ
  min_length : ℤ
  max_length : ℤ
  iterations : ℤ
  top_n : ℤ
  random_seed : Option String
  fresh : ℕ

/-- Mirrors lines 1523-1524: `int(random_seed)` when the seed is a
non-empty digit string, and `rnd_seed or random.randint(...)` — the `or`
falls back to the fresh global draw when `rnd_seed` is `None` or `0`. -/
def pyIsDigit (s : String) : Bool :=
  s.data ≠ [] && s.data.all (fun c => decide ('0' ≤ c) && decide (c ≤ '9'))

/-- Decimal reading of a digit string (Python `int`). -/
def strToNat (s : String) : ℕ :=
  s.data.foldl (fun acc c => acc * 10 + (c.toNat - 48)) 0

/-- The effective seed handed to `random.Random` (lines 1523-1524). -/
def design_rng_seed (random_seed : Option String) (fresh : ℕ) : ℕ :=
  let rnd_seed : Option ℕ :=
    match random_seed with
    | some s => if s ≠ "" && pyIsDigit s then some (strToNat s) else none
    | none => none
  match rnd_seed with
  | some n => if n ≠ 0 then n else fresh
  | none => fresh

/-- The `move_type_attempts` / `move_type_accepts` counters; the only keys
ever produced are the five move tags. -/
structure MoveCounts where
  sub : ℕ
  ins : ℕ
  del : ℕ
  noop : ℕ
  random : ℕ
deriving DecidableEq, Repr

/-- The all-zero counter dictionaries. -/
def MoveCounts.zero : MoveCounts := ⟨0, 0, 0, 0, 0⟩

/-- Python `counts[move] = counts.get(move, 0) + 1` for the five move tags. -/
def MoveCounts.bump (m : MoveCounts) (tag : String) : MoveCounts :=
  if tag = "sub" then { m with sub := m.sub + 1 }
  else if tag = "ins" then { m with ins := m.ins + 1 }
  else if tag = "del" then { m with del := m.del + 1 }
  else if tag = "noop" then { m with noop := m.noop + 1 }
  else if tag = "random" then { m with random := m.random + 1 }
  else m

/-- One diagnostics trace snapshot (line 1840; the Python key
`accept_ratio` is spelled `accept_rate` here). -/
structure TraceEntry where
  iteration : ℕ
  temperature : ℚ
  accept_rate : ℚ
  current_error : Flt
  best_error : Flt
  current_rbs_length : ℕ
  restarts : ℕ
  last_move : String
  accepted : Bool
deriving DecidableEq, Repr

/-- The diagnostics dictionary.  `best_error` / `best_iteration` are
`Option`s because the early-exit dictionary carries no such keys.
Restart-log entries keep the data of the formatted line: restart index,
chosen sequence, inferred spacing. -/
structure Diagnostics where
  trace : List TraceEntry
  restart_log : List (ℕ × String × Option ℕ)
  move_type_attempts : MoveCounts
  move_type_accepts : MoveCounts
  restart_count : ℕ
  accept_window : ℤ
  iterations_requested : ℤ
  temperature_init : ℚ
  temperature_min : ℚ
  temperature_max : ℚ
  spacing_window : ℕ × ℕ
  sd_cores : List String
  early_exit : Bool
  best_iteration : Option ℕ
  best_error : Option Flt
deriving DecidableEq, Repr

/-- The mutable run state of the search loop (§3 Run State), plus the
diagnostics under construction. -/
structure LoopSt where
  rng : RngS
  eval : EvalState
  current_rbs : String
  current_error : Flt
  temperature : ℚ
  stagnation_count : ℕ
  accept_history : List Bool
  best_candidate : Option Candidate
  best_error : Flt
  best_iteration : Option ℕ
  restart_count : ℕ
  pool_index : ℕ
  iteration : ℕ
  diag : Diagnostics

/-- The fixed data of one run of the search loop. -/
structure RunCtx where
  env : Env
  ectx : EvalCtx
  minL : ℤ
  maxL : ℤ
  max_iter : ℕ
  patience : ℕ
  accept_window : ℕ
  trace_interval : ℕ
  sd_cores : List String
  seed_pool : List String

/-- Mirrors the move-weight schedule `current_move_weights` (lines
1699-1713); the local `ratio` is called `frac`. -/
def current_move_weights (tinit tmin tmax : ℚ) (step total_steps : ℕ)
    (current_temperature : ℚ) : ℚ × ℚ × ℚ :=
  let frac : ℚ := if 1 < total_steps then min 1 (((step : ℚ) - 1) / max 1 ((total_steps : ℚ) - 1)) else 0
  let sub_weight := 1 + 7 * frac
  let max_temp := max tmax tinit
  let temp_factor := max 0 (min 1 ((current_temperature - tmin) / max (1 / 1000000000000) (max_temp - tmin)))
  let exploration_scale := 1 + 2 * temp_factor
  let ins_weight := max (1 / 5) (exploration_scale * (1 - (3 / 10) * frac))
  let del_weight := max (1 / 5) (exploration_scale * (1 - (3 / 10) * frac))
  (sub_weight, ins_weight, del_weight)

/-- Mirrors `infer_spacing_from_sequence` (lines 1611-1619): for each core
in order, scan candidate offsets from the right; report the first spacing
inside the window. -/
def infer_spacing_from_sequence (sd_cores : List String) (spacing_min spacing_max : ℕ)
    (sequence : String) : Option ℕ :=
  sd_cores.findSome? (fun core =>
    ((List.range (sequence.length - core.length + 1)).reverse.find? (fun idx =>
        decide ((sequence.drop idx).take core.length = core) &&
        decide (spacing_min ≤ sequence.length - (idx + core.length)) &&
        decide (sequence.length - (idx + core.length) ≤ spacing_max))).map
      (fun idx => sequence.length - (idx + core.length)))

/-- The sliding-window update (lines 1819-1820): append the outcome, then
drop the oldest entry when the window size is exceeded. -/
def update_history (accept_window : ℕ) (history : List Bool) (accepted : Bool) : List Bool :=
  let h := history ++ [accepted]
  if accept_window < h.length then h.tail else h

/-- The acceptance ratio over the window (lines 1821-1825; the Python
local is `accept_ratio`). -/
def accept_rate (history : List Bool) : ℚ :=
  if history.isEmpty then 0 else (history.countP id : ℚ) / (history.length : ℚ)

/-- The temperature adaptation (lines 1826-1830): only with a full window,
halve above ratio 0.5 (floored at `tmin`), double below 0.05 (capped at
`tmax`), else leave unchanged. -/
def update_temperature (tmin tmax : ℚ) (accept_window : ℕ) (history : List Bool)
    (temperature : ℚ) : ℚ :=
  if history.length = accept_window then
    if 1 / 2 < accept_rate history then max tmin (temperature * (1 / 2))
    else if accept_rate history < 1 / 20 then min tmax (temperature * 2)
    else temperature
  else temperature

/-- Mirrors the local helper `restart_from_pool` (lines 1715-1745): pull
the next pool entry (or generate a fresh sequence once exhausted),
evaluate it to seed `current_error`, reset stagnation, clamp the
temperature back to the initial value, and log the restart. -/
def restart_from_pool (C : RunCtx) (restart_index : ℕ) (st : LoopSt) : LoopSt :=
  let cfg := C.env.cfg
  let pick : String × RngS × ℕ :=
    if st.pool_index < C.seed_pool.length then
      (C.seed_pool.getD st.pool_index "", st.rng, st.pool_index + 1)
    else
      let p := random_rbs st.rng C.minL C.maxL "" cfg.spacing_min cfg.spacing_max (some C.sd_cores)
      (p.1, p.2, st.pool_index)
  let current_rbs := pick.1
  let ec := ensure_cache C.ectx st.eval current_rbs
  let current_error := if !ec.1.rejected then ec.1.error else Flt.inf
  let spacing := infer_spacing_from_sequence C.sd_cores cfg.spacing_min cfg.spacing_max current_rbs
  { st with
    rng := pick.2.1
    pool_index := pick.2.2
    eval := ec.2
    current_rbs := current_rbs
    current_error := current_error
    stagnation_count := 0
    temperature := max cfg.temperature_min (min cfg.temperature_max cfg.temperature_init)
    diag := { st.diag with
      restart_log := st.diag.restart_log ++ [(restart_index, current_rbs, spacing)]
      restart_count := restart_index } }

/-- One iteration of the search loop body (lines 1761-1876): generate a
neighbour (mutation, or a fresh random sequence when there is no
incumbent), evaluate it through the cache, decide acceptance, update the
incumbent / best / stagnation bookkeeping, slide the acceptance window,
adapt the temperature, fill in a missing best candidate, and append a
trace snapshot at trace points. -/
def iterate_once (C : RunCtx) (st0 : LoopSt) : LoopSt :=
  let cfg := C.env.cfg
  let iteration := st0.iteration + 1
  let gen : (String × String) × RngS :=
    if st0.current_rbs ≠ "" then
      let w := current_move_weights cfg.temperature_init cfg.temperature_min cfg.temperature_max
        iteration C.max_iter st0.temperature
      mutate_rbs st0.rng st0.current_rbs C.minL C.maxL w.1 w.2.1 w.2.2
    else
      let p := random_rbs st0.rng C.minL C.maxL "" cfg.spacing_min cfg.spacing_max (some C.sd_cores)
      ((p.1, "random"), p.2)
  let candidate := gen.1.1
  let move_type := gen.1.2
  let st1 : LoopSt := { st0 with
    rng := gen.2
    iteration := iteration
    diag := { st0.diag with move_type_attempts := st0.diag.move_type_attempts.bump move_type } }
  let pa : LoopSt × Bool :=
    if candidate = st1.current_rbs then (st1, false)
    else
      let ec := ensure_cache C.ectx st1.eval candidate
      let result := ec.1
      let candidate_error := result.error
      let au : Bool × RngS :=
        match st1.current_error with
        | .inf => (candidate_error.isFinite && !result.rejected, st1.rng)
        | .fin _ =>
          let p := st1.rng.random01
          (accept_decision C.env.expf candidate_error result.rejected st1.current_error
            st1.temperature p.1, p.2)
      let accepted := au.1
      let st2 : LoopSt := { st1 with
        rng := au.2
        eval := ec.2 }
      let st3 : LoopSt :=
        if accepted then
          let st2a : LoopSt := { st2 with
            current_rbs := candidate
            current_error := candidate_error
            diag := { st2.diag with move_type_accepts := st2.diag.move_type_accepts.bump move_type } }
          if !result.rejected && Flt.blt candidate_error st2.best_error then
            { st2a with
              best_candidate := some result
              best_error := candidate_error
              best_iteration := some iteration
              stagnation_count := 0 }
          else { st2a with stagnation_count := st2a.stagnation_count + 1 }
        else { st2 with stagnation_count := st2.stagnation_count + 1 }
      (st3, accepted)
  let st4 := pa.1
  let accepted := pa.2
  let history := update_history C.accept_window st4.accept_history accepted
  let rate := accept_rate history
  let st5 : LoopSt := { st4 with
    accept_history := history
    temperature := update_temperature cfg.temperature_min cfg.temperature_max C.accept_window
      history st4.temperature }
  let st6 : LoopSt :=
    if st5.best_candidate = none ∧ st5.current_error ≠ .inf then
      let ec := ensure_cache C.ectx st5.eval st5.current_rbs
      if !ec.1.rejected then
        { st5 with
          eval := ec.2
          best_candidate := some ec.1
          best_error := ec.1.error
          best_iteration := some iteration }
      else { st5 with eval := ec.2 }
    else st5
  if iteration % C.trace_interval = 0 ∨ iteration = 1 ∨ iteration = C.max_iter then
    let te : TraceEntry :=
      { iteration := iteration
        temperature := st6.temperature
        accept_rate := rate
        current_error := st6.current_error
        best_error := st6.best_error
        current_rbs_length := st6.current_rbs.length
        restarts := st6.restart_count
        last_move := move_type
        accepted := accepted }
    { st6 with diag := { st6.diag with trace := st6.diag.trace ++ [te] } }
  else st6

/-- The inner `for` over at most `inner_limit` iterations, with the
stagnation break at the end of the body (lines 1761-1876). -/
def inner_loop (C : RunCtx) : ℕ → LoopSt → LoopSt
  | 0, st => st
  | n + 1, st =>
    let st1 := iterate_once C st
    if C.patience ≤ st1.stagnation_count then st1 else inner_loop C n st1

/-- The outer `while iteration < max_iter` (lines 1756-1876).  The fuel
argument is initialised to `max_iter`; every pass performs at least one
iteration (`inner_limit ≥ 1` whenever the guard holds), so the fuel never
runs out before the guard fails. -/
def outer_loop (C : RunCtx) : ℕ → LoopSt → LoopSt
  | 0, st => st
  | fuel + 1, st =>
    if st.iteration < C.max_iter then
      let rc := st.restart_count + 1
      let st1 := restart_from_pool C rc { st with restart_count := rc }
      let st2 := inner_loop C (min C.patience (C.max_iter - st1.iteration)) st1
      outer_loop C fuel st2
    else st

/-- The seed-pool construction (lines 1543-1556). -/
def build_pool (cfg : Config) (minL maxL : ℤ) (sd_cores : List String) (pool_size : ℕ) :
    ℕ → List String → RngS → List String × RngS
  | 0, pool, rng => (pool, rng)
  | n + 1, pool, rng =>
    let p := random_rbs rng minL maxL "" cfg.spacing_min cfg.spacing_max (some sd_cores)
    let pool1 := if p.1 ∈ pool then pool else pool ++ [p.1]
    if pool_size ≤ pool1.length then (pool1, p.2)
    else build_pool cfg minL maxL sd_cores pool_size n pool1 p.2

/-- The ranking order of the final sort key `(error, -predicted_expression)`
(line 1880): ascending error, descending expression on ties. -/
def rank_le (a b : Candidate) : Prop :=
  Flt.blt a.error b.error = true ∨
    (a.error = b.error ∧ b.predicted_expression ≤ a.predicted_expression)

instance : DecidableRel rank_le := fun a b => by
  unfold rank_le
  infer_instance

instance : IsTotal Candidate rank_le := by
  constructor
  intro a b
  unfold rank_le
  cases ha : a.error with
  | inf =>
    cases hb : b.error with
    | inf => rcases le_total a.predicted_expression b.predicted_expression with h | h
             · exact Or.inr (Or.inr ⟨rfl, h⟩)
             · exact Or.inl (Or.inr ⟨rfl, h⟩)
    | fin y => exact Or.inr (Or.inl (by simp [Flt.blt]))
  | fin x =>
    cases hb : b.error with
    | inf => exact Or.inl (Or.inl (by simp [Flt.blt]))
    | fin y =>
      rcases lt_trichotomy x y with h | h | h
      · exact Or.inl (Or.inl (by simp [Flt.blt, h]))
      · subst h
        rcases le_total a.predicted_expression b.predicted_expression with h | h
        · exact Or.inr (Or.inr ⟨rfl, h⟩)
        · exact Or.inl (Or.inr ⟨rfl, h⟩)
      · exact Or.inr (Or.inl (by simp [Flt.blt, h]))

instance : IsTrans Candidate rank_le := by
  constructor
  intro a b c hab hbc
  unfold rank_le at *
  rcases hab with hab | ⟨hab, hab2⟩ <;> rcases hbc with hbc | ⟨hbc, hbc2⟩
  · left
    cases ha : a.error <;> cases hb : b.error <;> cases hc : c.error <;>
      simp_all [Flt.blt] <;> linarith
  · left
    rw [← hbc]
    exact hab
  · left
    rw [hab]
    exact hbc
  · right
    exact ⟨hab.trans hbc, hbc2.trans hab2⟩

/-- The stable sort of line 1880 (`sorted` with the tuple key), realised as
an insertion sort with the same stable order. -/
def sort_candidates (l : List Candidate) : List Candidate :=
  List.insertionSort rank_le l

/-- The dedup/filter/take loop over the sorted candidates (lines
1878-1890): skip already-seen fragments, empty fragments, rejected or
non-positive-expression entries; stop once `top_n` entries are kept. -/
def select_unique (top_n : ℕ) : List Candidate → List String → List Candidate → List Candidate
  | [], _, acc => acc.reverse
  | c :: rest, seen, acc =>
    if c.rbs_sequence ∈ seen then select_unique top_n rest seen acc
    else if c.rbs_sequence = "" then select_unique top_n rest seen acc
    else if c.rejected || c.predicted_expression ≤ 0 then select_unique top_n rest seen acc
    else
      let acc1 := c :: acc
      if top_n ≤ acc1.length then acc1.reverse
      else select_unique top_n rest (c.rbs_sequence :: seen) acc1

/-- The ranked-output computation of `design_rbs_candidates` (lines
1878-1890). -/
def rank_unique (l : List Candidate) (top_n : ℕ) : List Candidate :=
  select_unique top_n (sort_candidates l) [] []

/-- The ranked output record of `_run_design_core` (lines 2097-2118). -/
structure CandidateOutput where
  rank : ℕ
  rbs_sequence : String
  predicted_expression : ℚ
  target_expression : ℚ
  error : Flt
  fold_ratio : Option ℚ
  start_position : Option ℚ
  start_codon : String
  full_sequence : String
deriving DecidableEq, Repr

/-- The record-building loop of `_run_design_core` (lines 2097-2118),
carrying the 1-based `enumerate` counter. -/
def make_ranked_from (target_expression : ℚ) : ℕ → List Candidate → List CandidateOutput
  | _, [] => []
  | i, c :: rest =>
    { rank := i
      rbs_sequence := c.rbs_sequence
      predicted_expression := c.predicted_expression
      target_expression := target_expression
      error := c.error
      fold_ratio :=
        if 0 < c.predicted_expression ∧ 0 < target_expression then
          some (c.predicted_expression / target_expression)
        else none
      start_position := c.start_position
      start_codon := c.start_codon
      full_sequence := c.full_sequence } :: make_ranked_from target_expression (i + 1) rest

/-- The `ranked` list of `_run_design_core` (lines 2097-2118). -/
def make_ranked (target_expression : ℚ) (candidates : List Candidate) : List CandidateOutput :=
  make_ranked_from target_expression 1 candidates

/-- The result tuple of `design_rbs_candidates`, with the final evaluation
state exposed for specification purposes (oracle-call counting). -/
structure DesignResult where
  ranked : List Candidate
  best : Option Candidate
  diagnostics : Diagnostics
  eval_final : EvalState
deriving DecidableEq, Repr

/-- Mirrors `design_rbs_candidates` (lines 1490-1894).  The early-exit
branch precedes all other work; a non-positive target raises
`ValueError`, modelled as `Except.error`. -/
def design_rbs_candidates (env : Env) (p : DesignParams) : Except String DesignResult :=
  let cfg := env.cfg
  if p.iterations ≤ 0 ∨ p.top_n ≤ 0 then
    .ok { ranked := []
          best := none
          diagnostics :=
            { trace := []
              restart_log := []
              move_type_attempts := .zero
              move_type_accepts := .zero
              restart_count := 0
              accept_window := cfg.accept_window
              iterations_requested := p.iterations
              temperature_init := cfg.temperature_init
              temperature_min := cfg.temperature_min
              temperature_max := cfg.temperature_max
              spacing_window := (cfg.spacing_min, cfg.spacing_max)
              sd_cores := cfg.sd_cores.filter (· ≠ "")
              early_exit := true
              best_iteration := none
              best_error := none }
          eval_final := { evaluated := [], top_candidates := [], oracle_calls := 0 } }
  else
    let rng0 : RngS := { stream := env.mt (design_rng_seed p.random_seed p.fresh), idx := 0 }
    let minL : ℤ := max 4 p.min_length
    let maxL : ℤ := max minL p.max_length
    if p.target_expression ≤ 0 then .error "Target expression must be greater than 0"
    else
      let sd_cores := cfg.sd_cores.filter (· ≠ "")
      let ectx : EvalCtx :=
        { pre_seq := p.pre_seq
          post_seq := p.post_seq
          expected_start := p.pre_seq.length + 1
          start_codon := strUpper (p.post_seq.take 3)
          target_log := env.log10 p.target_expression
          oracle := env.oracle
          log10 := env.log10 }
      let pool_size := max 4 (min 12 (max 4 (p.iterations.toNat / 5)))
      let bp := build_pool cfg minL maxL sd_cores pool_size pool_size [] rng0
      let sp : List String × RngS :=
        if bp.1 = [] then
          let z := random_rbs bp.2 minL maxL "" cfg.spacing_min cfg.spacing_max none
          ([z.1], z.2)
        else bp
      let patience := (max 1 cfg.restart_patience).toNat
      let accept_window := (max 4 (min cfg.accept_window p.iterations)).toNat
      let trace_interval := max 10 (min 50 (max 1 (p.iterations.toNat / 10)))
      let max_iter := (max 1 p.iterations).toNat
      let C : RunCtx :=
        { env := env
          ectx := ectx
          minL := minL
          maxL := maxL
          max_iter := max_iter
          patience := patience
          accept_window := accept_window
          trace_interval := trace_interval
          sd_cores := sd_cores
          seed_pool := sp.1 }
      let diag0 : Diagnostics :=
        { trace := []
          restart_log := []
          move_type_attempts := .zero
          move_type_accepts := .zero
          restart_count := 0
          accept_window := (accept_window : ℤ)
          iterations_requested := p.iterations
          temperature_init := cfg.temperature_init
          temperature_min := cfg.temperature_min
          temperature_max := cfg.temperature_max
          spacing_window := (cfg.spacing_min, cfg.spacing_max)
          sd_cores := sd_cores
          early_exit := false
          best_iteration := none
          best_error := none }
      let st0 : LoopSt :=
        { rng := sp.2
          eval := { evaluated := [], top_candidates := [], oracle_calls := 0 }
          current_rbs := ""
          current_error := .inf
          temperature := cfg.temperature_init
          stagnation_count := 0
          accept_history := []
          best_candidate := none
          best_error := .inf
          best_iteration := none
          restart_count := 0
          pool_index := 0
          iteration := 0
          diag := diag0 }
      let stf := outer_loop C max_iter st0
      .ok { ranked := rank_unique stf.eval.top_candidates p.top_n.toNat
            best := stf.best_candidate
            diagnostics := { stf.diag with
              best_error := some stf.best_error
              best_iteration := stf.best_iteration }
            eval_final := stf.eval }

/-- Projection helper for stating run-level facts. -/
def rankedOf : Except String DesignResult → List Candidate
  | .ok r => r.ranked
  | .error _ => []

/-- Projection helper for stating run-level facts. -/
def bestOf : Except String DesignResult → Option Candidate
  | .ok r => r.best
  | .error _ => none

/-- Projection helper: the candidates held in the evaluation cache at the
end of a run (everything the run has seen). -/
def seenOf : Except String DesignResult → List Candidate
  | .ok r => r.eval_final.evaluated.map Prod.snd
  | .error _ => []

/-- Specification-side definition, following the words of claim C8 / §3 Run
State: the best candidate of a run is the lowest-error candidate seen,
ties broken in favour of higher predicted expression — the head of the
list sorted by exactly that order. -/
def spec_best_candidate (seen : List Candidate) : Option Candidate :=
  (List.insertionSort rank_le seen).head?

/-- The best-candidate update of lines 1803-1811, extracted: the pair is
`(best_candidate, best_error)`; it changes exactly when an accepted, valid
candidate strictly improves the best error. -/
def best_step (accepted : Bool) (c : Candidate) (b : Option Candidate × Flt) :
    Option Candidate × Flt :=
  if accepted && !c.rejected && Flt.blt c.error b.2 then (some c, c.error) else b

/-- The best-candidate tracker folded over the (accepted?, result) events
of a run. -/
def best_fold : List (Bool × Candidate) → Option Candidate × Flt → Option Candidate × Flt
  | [], b => b
  | e :: evs, b => best_fold evs (best_step e.1 e.2 b)

/-- The candidates of the accepted, non-rejected events of a run, in
order. -/
def accepted_valid (evs : List (Bool × Candidate)) : List Candidate :=
  (evs.filter (fun e => e.1 && !e.2.rejected)).map Prod.snd

/-- The least error of a candidate list (infinity when empty). -/
def min_error (l : List Candidate) : Flt :=
  (l.map Candidate.error).foldr Flt.fmin .inf

/-!
Concrete data for counterexamples and witnesses.

The candidates below are the evaluation outcomes of two short runs of
`design_rbs_candidates` (checked against the model by execution):

Run A — `pre_seq = "G"`, `post_seq = "ATG"`, `target_expression = 10`,
`min_length = 4`, `max_length = 5`, `iterations = 3`, `top_n = 2`,
seed `"7"`, `restart_patience = 1`, `log10` modelled as the identity,
oracle answering expressions 8 / 9 / 10 for the fragments `AGGA` /
`AGGG` / `AGGAG` and no row otherwise, and the draw stream
0,1,0,0, 0,3,1,0, 0,0,0,1, 0, 0,3,1,0.  The run restarts after the
rejected mutation `CGGAG`; the second restart seeds `AGGAG`
(error 0) while the tracked best stays `AGGG` (error 1): the
best-candidate events handed to the tracker of lines 1803-1811 are
`[(accepted, AGGG), (not accepted, CGGAG)]`, and the cache ends with
all four fragments.

Run B — same context with `min_length = max_length = 4`,
`iterations = 2`, default patience, `log10` modelled as constant 0
(so every accepted candidate has error 0), oracle expressions 1 / 2 / 3
for `AGGA` / `CGGA` / `CCGA`.  Both mutations are accepted (`delta = 0`);
the tracker keeps the first accepted candidate `CGGA` although the
error-tied `CCGA` has the higher predicted expression.
-/

/-- Run A: the accepted mutation `AGGG` (error 1). -/
def c8_AGGG : Candidate :=
  { rbs_sequence := "AGGG"
    full_sequence := "GAGGGATG"
    start_position := some 6
    start_codon := "ATG"
    predicted_expression := 9
    error := .fin 1
    rejected := false
    reject_reason := none }

/-- Run A: the rejected mutation `CGGAG` (no oracle row). -/
def c8_CGGAG : Candidate :=
  { rbs_sequence := "CGGAG"
    full_sequence := "GCGGAGATG"
    start_position := none
    start_codon := "ATG"
    predicted_expression := 0
    error := .inf
    rejected := true
    reject_reason := some .no_valid_ostir_row }

/-- Run A: the second restart seed `AGGAG` (error 0), evaluated but never
passed through the acceptance step. -/
def c8_AGGAG : Candidate :=
  { rbs_sequence := "AGGAG"
    full_sequence := "GAGGAGATG"
    start_position := some 7
    start_codon := "ATG"
    predicted_expression := 10
    error := .fin 0
    rejected := false
    reject_reason := none }

/-- Run A: the first restart seed `AGGA` (error 2). -/
def c8_AGGA : Candidate :=
  { rbs_sequence := "AGGA"
    full_sequence := "GAGGAATG"
    start_position := some 6
    start_codon := "ATG"
    predicted_expression := 8
    error := .fin 2
    rejected := false
    reject_reason := none }

/-- Run B: the first accepted mutation `CGGA` (error 0, expression 2). -/
def c8_CGGA : Candidate :=
  { rbs_sequence := "CGGA"
    full_sequence := "GCGGAATG"
    start_position := some 6
    start_codon := "ATG"
    predicted_expression := 2
    error := .fin 0
    rejected := false
    reject_reason := none }

/-- Run B: the second accepted mutation `CCGA` (error 0, expression 3). -/
def c8_CCGA : Candidate :=
  { rbs_sequence := "CCGA"
    full_sequence := "GCCGAATG"
    start_position := some 6
    start_codon := "ATG"
    predicted_expression := 3
    error := .fin 0
    rejected := false
    reject_reason := none }

/-- Run B: the restart seed `AGGA` (error 0, expression 1). -/
def c8_AGGA0 : Candidate :=
  { rbs_sequence := "AGGA"
    full_sequence := "GAGGAATG"
    start_position := some 6
    start_codon := "ATG"
    predicted_expression := 1
    error := .fin 0
    rejected := false
    reject_reason := none }

/-- A trivial environment for witness instantiations. -/
def trivEnv : Env :=
  { oracle := fun _ _ => none
    log10 := fun q => q
    expf := fun q => q
    mt := fun _ _ => 0
    cfg := defaultConfig }

/-- A concrete draw stream for witness instantiations. -/
def rng0 : RngS := { stream := fun _ => 0, idx := 0 }

/-- A concrete oracle row answering with a start-codon mismatch (`gtg`
reported against an expected `ATG`). -/
def row0 : Row := { start_position := some 6, start_codon := "gtg", expression := some 7 }

/-- A concrete evaluation context for witness instantiations: expected
codon `ATG`, oracle constantly answering `row0`. -/
def ctx0 : EvalCtx :=
  { pre_seq := "G"
    post_seq := "ATGAA"
    expected_start := 2
    start_codon := "ATG"
    target_log := 3
    oracle := fun _ _ => some row0
    log10 := fun q => q }

/-- The empty evaluation state. -/
def st0 : EvalState := { evaluated := [], top_candidates := [], oracle_calls := 0 }

/-- Concrete design parameters for the early-exit witness. -/
def p0 : DesignParams :=
  { pre_seq := "G"
    post_seq := "ATG"
    target_expression := 5
    min_length := 4
    max_length := 5
    iterations := 0
    top_n := 10
    random_seed := none
    fresh := 1 }

/-! Theorems. -/

/-- Claim C2: a non-positive iteration budget or top-N short-circuits
`design_rbs_candidates` to an empty ranked list, no best candidate, an
`early_exit = true` diagnostics flag, and zero oracle calls. -/
theorem C2_early_exit (env : Env) (p : DesignParams)
    (h : p.iterations ≤ 0 ∨ p.top_n ≤ 0) :
    ∃ r, design_rbs_candidates env p = Except.ok r ∧
      r.ranked = [] ∧ r.best = none ∧ r.diagnostics.early_exit = true ∧
      r.eval_final.oracle_calls = 0 := by
  unfold design_rbs_candidates
  rw [if_pos h]
  exact ⟨_, rfl, rfl, rfl, rfl, rfl⟩

/-- Witness for C2 at `iterations = 0`. -/
theorem C2_early_exit_witness :
    ∃ r, design_rbs_candidates trivEnv p0 = Except.ok r ∧
      r.ranked = [] ∧ r.best = none ∧ r.diagnostics.early_exit = true ∧
      r.eval_final.oracle_calls = 0 :=
  C2_early_exit trivEnv p0 (Or.inl (by decide))

/-- Counterexample to claim C4 as stated: with a degenerate temperature the
code returns probability 0 even for `delta ≤ 0` (here `delta = -1`,
`temperature = 0`), not probability 1 — the degenerate-temperature check
of line 1748 precedes the `delta ≤ 0` check of line 1750. -/
theorem C4_counterexample :
    accept_probability (fun q => q) (.fin (-1)) (.fin 0) = 0 ∧
    accept_probability (fun q => q) (.fin (-1)) (.fin 0) ≠ 1 := by
  constructor
  · norm_num [accept_probability]
  · norm_num [accept_probability]

/-- Claim C4 as amended: for a positive finite temperature, `delta ≤ 0`
yields probability 1 and positive `delta` yields `exp(-delta/temperature)`;
a degenerate temperature (`≤ 0` or infinite) or a non-finite `delta`
yields probability 0 for every `delta`; a rejected candidate is never
accepted by the decision of lines 1796-1801; and a freshly evaluated
candidate is non-rejected exactly when its error is finite (so non-finite
error candidates coincide with rejected ones and are never accepted). -/
theorem C4_acceptance_amended (expf : ℚ → ℚ) :
    (∀ d t : ℚ, 0 < t → d ≤ 0 → accept_probability expf (.fin d) (.fin t) = 1) ∧
    (∀ d t : ℚ, 0 < t → 0 < d → accept_probability expf (.fin d) (.fin t) = expf (-d / t)) ∧
    (∀ delta : Flt, ∀ t : ℚ, t ≤ 0 → accept_probability expf delta (.fin t) = 0) ∧
    (∀ delta : Flt, accept_probability expf delta .inf = 0) ∧
    (∀ temp : Flt, accept_probability expf .inf temp = 0) ∧
    (∀ (ce cur : Flt) (temp u : ℚ), accept_decision expf ce true cur temp u = false) ∧
    (∀ ctx st rbs, st.evaluated.lookup rbs = none →
      ((ensure_cache ctx st rbs).1.rejected = false ↔ (ensure_cache ctx st rbs).1.error ≠ .inf)) := by
  refine ⟨?_, ?_, ?_, ?_, ?_, ?_, ?_⟩
  · intro d t ht hd
    simp [accept_probability, not_le.mpr ht, hd]
  · intro d t ht hd
    simp [accept_probability, not_le.mpr ht, not_le.mpr hd]
  · intro delta t ht
    cases delta <;> simp [accept_probability, ht]
  · intro delta
    simp [accept_probability]
  · intro temp
    cases temp <;> simp [accept_probability]
  · intro ce cur temp u
    cases cur <;> simp [accept_decision]
  · intro ctx st rbs h
    simp only [ensure_cache, h]
    split
    · simp [build_invalid_candidate]
    · split
      · simp [build_invalid_candidate]
      · split_ifs with h1 h2
        · simp [build_invalid_candidate]
        · simp [build_invalid_candidate]
        · split
          · simp [build_invalid_candidate]
          · split_ifs with h3
            · simp [build_invalid_candidate]
            · simp

/-- Witness for the amended C4 at concrete inputs: `delta = -1`,
`temperature = 1` gives probability 1, and a rejected candidate is not
accepted. -/
theorem C4_acceptance_witness :
    accept_probability (fun q => q) (.fin (-1)) (.fin 1) = 1 ∧
    accept_decision (fun q => q) (.fin 1) true (.fin 0) 1 0 = false :=
  ⟨(C4_acceptance_amended (fun q => q)).1 (-1) 1 (by norm_num) (by norm_num),
   (C4_acceptance_amended (fun q => q)).2.2.2.2.2.1 (.fin 1) (.fin 0) 1 0⟩

/-- Claim C7 (supporting theorem for the seed bug): the effective seed
handed to `random.Random` (lines 1523-1524) tracks the process-global
fresh draw when the provided seed is the valid digit string `"0"` —
because `int("0")` is falsy in `rnd_seed or random.randint(...)` — while
a nonzero digit seed is honoured.  Two runs with seed `"0"` therefore
seed their generators from independent global draws. -/
theorem C7_seed_zero_not_deterministic :
    design_rng_seed (some "0") 11 = 11 ∧
    design_rng_seed (some "0") 222 = 222 ∧
    design_rng_seed (some "42") 11 = 42 ∧
    design_rng_seed (some "42") 222 = 42 ∧
    design_rng_seed none 11 = 11 := by
  decide

/-- Helper: on a cache miss, `ensure_cache` stores the returned candidate
under the fragment and bumps the oracle-call counter by exactly one. -/
theorem ensure_cache_miss_shape (ctx : EvalCtx) (st : EvalState) (rbs : String)
    (h : st.evaluated.lookup rbs = none) :
    (ensure_cache ctx st rbs).2.evaluated = (rbs, (ensure_cache ctx st rbs).1) :: st.evaluated ∧
    (ensure_cache ctx st rbs).2.oracle_calls = st.oracle_calls + 1 := by
  simp only [ensure_cache, h]
  split
  · simp [build_invalid_candidate]
  · split
    · simp [build_invalid_candidate]
    · split_ifs
      · simp [build_invalid_candidate]
      · simp [build_invalid_candidate]
      · split
        · simp [build_invalid_candidate]
        · split_ifs
          · simp [build_invalid_candidate]
          · simp

/-- Claim C3: evaluation is memoised with write-once entries.  A hit
returns the stored candidate with the state unchanged; after any
evaluation the candidate is stored under its fragment; re-evaluating the
same fragment returns the stored candidate and leaves the state — in
particular the oracle-call counter — unchanged; one evaluation adds at
most one oracle call; and existing cache entries are never overwritten. -/
theorem C3_evaluation_cache (ctx : EvalCtx) (st : EvalState) (rbs : String) :
    (∀ c, st.evaluated.lookup rbs = some c → ensure_cache ctx st rbs = (c, st)) ∧
    ((ensure_cache ctx st rbs).2.evaluated.lookup rbs = some (ensure_cache ctx st rbs).1) ∧
    (ensure_cache ctx (ensure_cache ctx st rbs).2 rbs =
      ((ensure_cache ctx st rbs).1, (ensure_cache ctx st rbs).2)) ∧
    ((ensure_cache ctx st rbs).2.oracle_calls ≤ st.oracle_calls + 1) ∧
    (∀ s c, st.evaluated.lookup s = some c →
      (ensure_cache ctx st rbs).2.evaluated.lookup s = some c) := by
  have hit : ∀ (s2 : EvalState) (c : Candidate), s2.evaluated.lookup rbs = some c →
      ensure_cache ctx s2 rbs = (c, s2) := by
    intro s2 c hc
    simp [ensure_cache, hc]
  refine ⟨hit st, ?_⟩
  rcases hl : st.evaluated.lookup rbs with _ | c
  · obtain ⟨hev, hcalls⟩ := ensure_cache_miss_shape ctx st rbs hl
    have hstore : (ensure_cache ctx st rbs).2.evaluated.lookup rbs =
        some (ensure_cache ctx st rbs).1 := by
      rw [hev]
      simp [List.lookup]
    refine ⟨hstore, hit _ _ hstore, ?_, ?_⟩
    · rw [hcalls]
    · intro s c0 hsc
      by_cases hs : s = rbs
      · subst hs
        rw [hl] at hsc
        cases hsc
      · rw [hev]
        simpa [List.lookup, beq_eq_false_iff_ne.mpr hs] using hsc
  · rw [hit st c hl]
    exact ⟨hl, hit st c hl, Nat.le_succ _, fun s c0 hsc => hsc⟩

/-- Witness for C3 at a concrete context and the empty state: evaluating
`"AC"` twice returns the stored candidate with unchanged state, and the
first evaluation costs at most one oracle call. -/
theorem C3_evaluation_cache_witness :
    ((ensure_cache ctx0 st0 "AC").2.evaluated.lookup "AC" = some (ensure_cache ctx0 st0 "AC").1) ∧
    (ensure_cache ctx0 (ensure_cache ctx0 st0 "AC").2 "AC" =
      ((ensure_cache ctx0 st0 "AC").1, (ensure_cache ctx0 st0 "AC").2)) ∧
    ((ensure_cache ctx0 st0 "AC").2.oracle_calls ≤ st0.oracle_calls + 1) :=
  ⟨(C3_evaluation_cache ctx0 st0 "AC").2.1,
   (C3_evaluation_cache ctx0 st0 "AC").2.2.1,
   (C3_evaluation_cache ctx0 st0 "AC").2.2.2.1⟩

/-- Claim C5: on a first-time evaluation the oracle outcome is classified
against the four rejection conditions in priority order — no row →
non-positive expression → start-codon mismatch → start-position mismatch →
accepted — with the corresponding `reject_reason`, and an accepted
candidate has `error = |log10(predicted_expression) - target_log|` where
`target_log` is `log10(target_expression)` as set up by
`design_rbs_candidates`.  (The code stores the reason string
`no_valid_ostir_row`; the spec names the same condition
`no_valid_oracle_row`.) -/
theorem C5_classification (ctx : EvalCtx) (st : EvalState) (rbs : String)
    (hmiss : st.evaluated.lookup rbs = none) :
    (ctx.oracle (ctx.pre_seq ++ rbs ++ ctx.post_seq) (ctx.expected_start + rbs.length) = none →
      (ensure_cache ctx st rbs).1.rejected = true ∧
      (ensure_cache ctx st rbs).1.reject_reason = some .no_valid_ostir_row) ∧
    (∀ row, ctx.oracle (ctx.pre_seq ++ rbs ++ ctx.post_seq) (ctx.expected_start + rbs.length) = some row →
      ((row.expression = none →
          (ensure_cache ctx st rbs).1.rejected = true ∧
          (ensure_cache ctx st rbs).1.reject_reason = some .non_positive_expression) ∧
       (∀ e, row.expression = some e → e ≤ 0 →
          (ensure_cache ctx st rbs).1.rejected = true ∧
          (ensure_cache ctx st rbs).1.reject_reason = some .non_positive_expression) ∧
       (∀ e, row.expression = some e → 0 < e → strUpper row.start_codon ≠ ctx.start_codon →
          (ensure_cache ctx st rbs).1.rejected = true ∧
          (ensure_cache ctx st rbs).1.reject_reason = some .start_codon_mismatch) ∧
       (∀ e, row.expression = some e → 0 < e → strUpper row.start_codon = ctx.start_codon →
          (row.start_position = none ∨
            ∃ op, row.start_position = some op ∧ ratTrunc op ≠ (ctx.expected_start + rbs.length : ℤ)) →
          (ensure_cache ctx st rbs).1.rejected = true ∧
          (ensure_cache ctx st rbs).1.reject_reason = some .start_position_mismatch) ∧
       (∀ e op, row.expression = some e → 0 < e → strUpper row.start_codon = ctx.start_codon →
          row.start_position = some op → ratTrunc op = (ctx.expected_start + rbs.length : ℤ) →
          (ensure_cache ctx st rbs).1.rejected = false ∧
          (ensure_cache ctx st rbs).1.predicted_expression = max e EPS ∧
          (ensure_cache ctx st rbs).1.error =
            .fin |ctx.log10 ((ensure_cache ctx st rbs).1.predicted_expression) - ctx.target_log|))) := by
  constructor
  · intro ho
    simp [ensure_cache, hmiss, ho, build_invalid_candidate]
  · intro row ho
    refine ⟨?_, ?_, ?_, ?_, ?_⟩
    · intro he
      simp [ensure_cache, hmiss, ho, he, build_invalid_candidate]
    · intro e he hle
      simp [ensure_cache, hmiss, ho, he, hle, build_invalid_candidate]
    · intro e he hpos hcod
      simp [ensure_cache, hmiss, ho, he, not_le.mpr hpos, hcod, build_invalid_candidate]
    · intro e he hpos hcod hbad
      rcases hbad with hnone | ⟨op, hop, hne⟩
      · simp [ensure_cache, hmiss, ho, he, not_le.mpr hpos, hcod, hnone, build_invalid_candidate]
      · simp [ensure_cache, hmiss, ho, he, not_le.mpr hpos, hcod, hop, hne, build_invalid_candidate]
    · intro e op he hpos hcod hop heq
      simp [ensure_cache, hmiss, ho, he, not_le.mpr hpos, hcod, hop, heq]

/-- Witness for C5 at a concrete context whose oracle reports codon `gtg`
against expected `ATG` with positive expression: the candidate is rejected
with reason `start_codon_mismatch` (the mismatch check fires even though
the reported start position is also wrong). -/
theorem C5_classification_witness :
    (ensure_cache ctx0 st0 "AC").1.rejected = true ∧
    (ensure_cache ctx0 st0 "AC").1.reject_reason = some .start_codon_mismatch :=
  ((C5_classification ctx0 st0 "AC" rfl).2 row0 rfl).2.2.1 7 rfl (by norm_num) (by decide)

/-- Claim C6: the sliding window holds at most `W` outcomes; the
temperature changes exactly when the window is full — halved (floored at
`tmin`) above ratio 0.5, doubled (capped at `tmax`) below 0.05, unchanged
otherwise; consequently, together with the restart clamp of line 1744, the
temperature stays within `[tmin, tmax]` after the first restart. -/
theorem C6_temperature_adaptation (tmin tmax tinit : ℚ) (w : ℕ) (h : List Bool) (a : Bool)
    (t : ℚ) (h0 : 0 ≤ tmin) (h1 : tmin ≤ tmax) :
    (h.length ≤ w → (update_history w h a).length ≤ w) ∧
    (∀ h2 : List Bool, h2.length ≠ w → update_temperature tmin tmax w h2 t = t) ∧
    (h.length = w → 1 / 2 < accept_rate h →
      update_temperature tmin tmax w h t = max tmin (t * (1 / 2))) ∧
    (h.length = w → accept_rate h < 1 / 20 →
      update_temperature tmin tmax w h t = min tmax (t * 2)) ∧
    (h.length = w → 1 / 20 ≤ accept_rate h → accept_rate h ≤ 1 / 2 →
      update_temperature tmin tmax w h t = t) ∧
    (tmin ≤ t → t ≤ tmax →
      tmin ≤ update_temperature tmin tmax w h t ∧ update_temperature tmin tmax w h t ≤ tmax) ∧
    (tmin ≤ max tmin (min tmax tinit) ∧ max tmin (min tmax tinit) ≤ tmax) := by
  refine ⟨?_, ?_, ?_, ?_, ?_, ?_, le_max_left _ _, max_le h1 (min_le_left _ _)⟩
  · intro hlen
    simp only [update_history]
    split_ifs with hw
    · simp only [List.length_tail, List.length_append, List.length_singleton]
      omega
    · simp only [List.length_append, List.length_singleton] at hw ⊢
      omega
  · intro h2 hne
    unfold update_temperature
    rw [if_neg hne]
  · intro hfull hrate
    unfold update_temperature
    rw [if_pos hfull, if_pos hrate]
  · intro hfull hrate
    unfold update_temperature
    rw [if_pos hfull, if_neg (by linarith), if_pos hrate]
  · intro hfull hlo hhi
    unfold update_temperature
    rw [if_pos hfull, if_neg (by linarith), if_neg (by linarith)]
  · intro hl hr
    unfold update_temperature
    split_ifs
    · exact ⟨le_max_left _ _, max_le h1 (by linarith)⟩
    · exact ⟨le_min h1 (by linarith), min_le_left _ _⟩
    · exact ⟨hl, hr⟩
    · exact ⟨hl, hr⟩

/-- Witness for C6 at the default bounds with a full window of four
acceptances: the temperature is halved (floored at the minimum). -/
theorem C6_temperature_witness :
    update_temperature (1 / 10000) 8 4 [true, true, true, true] 1 =
      max (1 / 10000) (1 * (1 / 2)) :=
  (C6_temperature_adaptation (1 / 10000) 8 1 4 [true, true, true, true] true 1
      (by norm_num) (by norm_num)).2.2.1 rfl
    (by norm_num [accept_rate, List.countP, List.countP.go])

/-- Transitivity of the strict order on `Flt`. -/
theorem Flt.blt_trans {a b c : Flt} (hab : Flt.blt a b = true) (hbc : Flt.blt b c = true) :
    Flt.blt a c = true := by
  cases a <;> cases b <;> cases c <;> simp [Flt.blt] at * <;> linarith

/-- Irreflexivity of the strict order on `Flt`. -/
theorem Flt.blt_irrefl (a : Flt) : Flt.blt a a = false := by
  cases a <;> simp [Flt.blt]

/-- Negative transitivity of the strict order on `Flt`. -/
theorem Flt.blt_false_trans {a b c : Flt} (hab : Flt.blt a b = false) (hbc : Flt.blt b c = false) :
    Flt.blt a c = false := by
  cases a <;> cases b <;> cases c <;> simp [Flt.blt] at * <;> linarith

/-- A strictly smaller `Flt` is different. -/
theorem Flt.ne_of_blt {a b : Flt} (hab : Flt.blt a b = true) : b ≠ a := by
  intro h
  subst h
  rw [Flt.blt_irrefl] at hab
  cases hab

/-- Helper: `best_fold` computes, from any starting pair, the first
strict-improvement chain outcome: if some accepted valid event beats the
starting error, the result is the first accepted valid candidate attaining
the minimal error together with that error; otherwise the start pair is
returned unchanged. -/
theorem best_fold_characterisation (evs : List (Bool × Candidate)) :
    ∀ acc : Option Candidate × Flt,
      best_fold evs acc =
        if Flt.blt (min_error (accepted_valid evs)) acc.2 then
          ((accepted_valid evs).find?
              (fun c => decide (c.error = min_error (accepted_valid evs))),
            min_error (accepted_valid evs))
        else acc := by
  induction evs with
  | nil =>
    intro acc
    simp [best_fold, accepted_valid, min_error, Flt.blt]
  | cons e evs ih =>
    intro acc
    rcases e with ⟨b, c⟩
    by_cases hv : (b && !c.rejected) = true
    · have hav : accepted_valid ((b, c) :: evs) = c :: accepted_valid evs := by
        simp [accepted_valid, hv]
      have hm : min_error (c :: accepted_valid evs) =
          Flt.fmin c.error (min_error (accepted_valid evs)) := by
        simp [min_error]
      rw [best_fold, hav, hm]
      set m := min_error (accepted_valid evs) with hmdef
      by_cases hlt : Flt.blt c.error acc.2 = true
      · have hstep : best_step b c acc = (some c, c.error) := by
          simp [best_step, hv, hlt]
        rw [hstep, ih]
        by_cases hmc : Flt.blt m c.error = true
        · have hfm : Flt.fmin c.error m = m := by
            simp [Flt.fmin, hmc]
          rw [hfm, if_pos hmc, if_pos (Flt.blt_trans hmc hlt)]
          have hcne : ¬ (c.error = m) := fun h => Flt.ne_of_blt hmc h
          simp [List.find?, hcne]
        · have hfm : Flt.fmin c.error m = c.error := by
            simp [Flt.fmin, hmc]
          have hmc2 : Flt.blt m c.error = false := by
            simp only [Bool.not_eq_true] at hmc
            exact hmc
          rw [hfm, if_neg (by rw [hmc2]; exact Bool.false_ne_true), if_pos hlt]
          simp [List.find?]
      · have hltf : Flt.blt c.error acc.2 = false := by
          simp only [Bool.not_eq_true] at hlt
          exact hlt
        have hstep : best_step b c acc = acc := by
          simp [best_step, hv, hltf]
        rw [hstep, ih]
        by_cases hmc : Flt.blt m c.error = true
        · have hfm : Flt.fmin c.error m = m := by
            simp [Flt.fmin, hmc]
          rw [hfm]
          have hcne : ¬ (c.error = m) := fun h => Flt.ne_of_blt hmc h
          by_cases hma : Flt.blt m acc.2 = true
          · rw [if_pos hma, if_pos hma]
            simp [List.find?, hcne]
          · have hmaf : Flt.blt m acc.2 = false := by
              simp only [Bool.not_eq_true] at hma
              exact hma
            rw [if_neg (ne_true_of_eq_false hmaf), if_neg (ne_true_of_eq_false hmaf)]
        · have hmc2 : Flt.blt m c.error = false := by
            simp only [Bool.not_eq_true] at hmc
            exact hmc
          have hfm : Flt.fmin c.error m = c.error := by
            simp [Flt.fmin, hmc]
          rw [hfm]
          have hmaf : Flt.blt m acc.2 = false := Flt.blt_false_trans hmc2 hltf
          rw [if_neg (ne_true_of_eq_false hmaf), if_neg (ne_true_of_eq_false hltf)]
    · have hav : accepted_valid ((b, c) :: evs) = accepted_valid evs := by
        simp only [accepted_valid, List.filter]
        rw [Bool.not_eq_true] at hv
        rw [hv]
      have hstep : best_step b c acc = acc := by
        rw [Bool.not_eq_true] at hv
        simp [best_step, hv]
      rw [best_fold, hstep, hav, ih]

/-- The minimum error of a non-empty candidate list is attained. -/
theorem min_error_attained (l : List Candidate) (h : l ≠ []) :
    ∃ c ∈ l, c.error = min_error l := by
  induction l with
  | nil => exact absurd rfl h
  | cons c rest ih =>
    rcases rest with _ | ⟨d, rest2⟩
    · refine ⟨c, by simp, ?_⟩
      simp [min_error, Flt.fmin, Flt.blt]
    · have hm : min_error (c :: d :: rest2) =
          Flt.fmin c.error (min_error (d :: rest2)) := by
        simp [min_error]
      rw [hm]
      by_cases hlt : Flt.blt (min_error (d :: rest2)) c.error = true
      · obtain ⟨e, he, herr⟩ := ih (by simp)
        refine ⟨e, by simp [he], ?_⟩
        rw [herr]
        simp [Flt.fmin, hlt]
      · refine ⟨c, by simp, ?_⟩
        have hlt2 : Flt.blt (min_error (d :: rest2)) c.error = false := by
          simp only [Bool.not_eq_true] at hlt
          exact hlt
        simp [Flt.fmin, hlt2]

/-- Counterexample to claim C8 as stated.  Run A (see the definitions of
`c8_AGGG`, `c8_CGGAG`, `c8_AGGAG`, `c8_AGGA` above): the tracker of lines
1803-1811, fed the run's acceptance events, keeps `AGGG` (error 1), while
the lowest-error candidate seen during the run — the second restart seed
`AGGAG`, evaluated at line 1730 without touching the best — has error 0.
Run B: two accepted candidates tie at error 0, and the tracker keeps the
earlier `CGGA` although `CCGA` has the higher predicted expression, so
ties are not broken in favour of higher `predicted_expression`. -/
theorem C8_counterexample :
    (best_fold [(true, c8_AGGG), (false, c8_CGGAG)] (none, .inf)).1 = some c8_AGGG ∧
    spec_best_candidate [c8_CGGAG, c8_AGGAG, c8_AGGG, c8_AGGA] = some c8_AGGAG ∧
    Flt.blt c8_AGGAG.error c8_AGGG.error = true ∧
    c8_AGGG ≠ c8_AGGAG ∧
    (best_fold [(true, c8_CGGA), (true, c8_CCGA)] (none, .inf)).1 = some c8_CGGA ∧
    spec_best_candidate [c8_AGGA0, c8_CGGA, c8_CCGA] = some c8_CCGA ∧
    c8_CCGA.error = c8_CGGA.error ∧
    c8_CGGA.predicted_expression < c8_CCGA.predicted_expression ∧
    c8_CGGA ≠ c8_CCGA := by
  decide

/-- Claim C8 as amended: the best candidate tracked by lines 1803-1811 is
the first accepted, non-rejected candidate attaining the minimal error
among the accepted non-rejected candidates of the run; error ties keep the
earlier candidate (predicted expression is not consulted), and candidates
that are merely evaluated without being accepted (such as restart seeds
arriving while a best already exists) are not considered. -/
theorem C8_best_amended (evs : List (Bool × Candidate))
    (hval : ∀ e ∈ evs, e.2.rejected = false → e.2.error ≠ Flt.inf) :
    (best_fold evs (none, .inf)).1 =
      (accepted_valid evs).find?
        (fun c => decide (c.error = min_error (accepted_valid evs))) := by
  rw [best_fold_characterisation]
  rcases hA : accepted_valid evs with _ | ⟨c, rest⟩
  · simp [min_error, Flt.blt]
  · have hne : (c :: rest) ≠ [] := by simp
    obtain ⟨d, hd, herr⟩ := min_error_attained (c :: rest) hne
    have hdval : d.rejected = false ∧ d.error ≠ Flt.inf := by
      have hmem : d ∈ accepted_valid evs := by rw [hA]; exact hd
      simp only [accepted_valid, List.mem_map, List.mem_filter] at hmem
      obtain ⟨e, ⟨hee, hef⟩, heq⟩ := hmem
      have hrej : e.2.rejected = false := by
        rw [Bool.and_eq_true] at hef
        have h2 := hef.2
        rwa [Bool.not_eq_true'] at h2
      subst heq
      exact ⟨hrej, hval e hee hrej⟩
    have hfin : min_error (c :: rest) ≠ Flt.inf := by
      rw [← herr]
      exact hdval.2
    have hblt : Flt.blt (min_error (c :: rest)) Flt.inf = true := by
      cases hmm : min_error (c :: rest) with
      | fin q => simp [Flt.blt]
      | inf => exact absurd hmm hfin
    simp [hblt]

/-- Witness for the amended C8 on a one-event run. -/
theorem C8_best_amended_witness :
    (best_fold [(true, c8_CGGA)] (none, .inf)).1 =
      (accepted_valid [(true, c8_CGGA)]).find?
        (fun c => decide (c.error = min_error (accepted_valid [(true, c8_CGGA)]))) :=
  C8_best_amended [(true, c8_CGGA)] (by decide)

/-- Helper: `random.choices` always returns an element of its population. -/
theorem pick_weighted_mem (items : List String) (ws : List ℚ) (u : ℚ) (h : items ≠ []) :
    pick_weighted items ws u ∈ items := by
  unfold pick_weighted
  have hlen : 0 < items.length := List.length_pos.mpr h
  have hidx : min (pick_index_w ws (u * (ws.foldr (· + ·) 0))) (items.length - 1) <
      items.length := lt_of_le_of_lt (min_le_right _ _) (by omega)
  rw [List.getD_eq_getElem _ _ hidx]
  exact List.getElem_mem hidx

/-- Helper: for every letter there is a different replacement letter. -/
theorem replacements_ne_nil (cur : Char) : (RBS_NUCLEOTIDES.filter (· ≠ cur)) ≠ [] := by
  intro h
  rw [List.filter_eq_nil] at h
  have h1 := h 'A' (by decide)
  have h2 := h 'C' (by decide)
  simp at h1 h2
  exact absurd (h1.trans h2.symm) (by decide)

/-- Helper: substituting a different letter at a valid position changes the
list. -/
theorem set_replacement_ne (seq : List Char) (idx : ℕ) (hidx : idx < seq.length) (c : Char)
    (hc : c ≠ seq.getD idx 'A') : seq.set idx c ≠ seq := by
  intro heq
  apply hc
  have h2 := congrArg (fun l => l[idx]?.getD 'A') heq
  simp only [List.getElem?_set_self, hidx, if_pos] at h2
  simpa [List.getD_eq_getElem?_getD] using h2

/-- Helper: `rnd.choice` on a non-empty list returns a member. -/
theorem RngS.choice_mem {α : Type} (r : RngS) (l : List α) (d : α) (h : l ≠ []) :
    (r.choice l d).1 ∈ l := by
  have hl : 0 < l.length := List.length_pos.mpr h
  show (l.getD (r.stream r.idx % l.length) d) ∈ l
  rw [List.getD_eq_getElem _ _ (Nat.mod_lt _ hl)]
  exact List.getElem_mem _

/-- Helper: `rnd.randrange n` is below `n` for positive `n`. -/
theorem RngS.randrange_lt (r : RngS) (n : ℕ) (h : 0 < n) : (r.randrange n).1 < n :=
  Nat.mod_lt _ h

/-- Helper: substituting a replacement letter changes the string. -/
theorem string_set_replacement_ne (seq : List Char) (idx : ℕ) (hidx : idx < seq.length) (c : Char)
    (hc : c ∈ RBS_NUCLEOTIDES.filter (· ≠ seq.getD idx 'A')) :
    String.mk (seq.set idx c) ≠ String.mk seq := by
  intro h
  have hcne : c ≠ seq.getD idx 'A' := by
    have := (List.mem_filter.mp hc).2
    simpa using this
  have hdeq : seq.set idx c = seq := by
    injection h
  exact set_replacement_ne seq idx hidx c hcne hdeq

/-- Helper: inserting a letter changes the string (length grows). -/
theorem string_insert_ne (seq : List Char) (idx : ℕ) (hidx : idx ≤ seq.length) (c : Char) :
    String.mk (List.insertIdx idx c seq) ≠ String.mk seq := by
  intro h
  have h2 : (List.insertIdx idx c seq).length = seq.length := by
    have := congrArg String.data h
    simpa using congrArg List.length this
  rw [List.length_insertIdx idx seq hidx] at h2
  omega

/-- Helper: deleting a letter changes the string (length shrinks). -/
theorem string_erase_ne (seq : List Char) (idx : ℕ) (hidx : idx < seq.length) :
    String.mk (seq.eraseIdx idx) ≠ String.mk seq := by
  intro h
  have h2 : (seq.eraseIdx idx).length = seq.length := by
    have := congrArg String.data h
    simpa using congrArg List.length this
  rw [List.length_eraseIdx] at h2
  rw [if_pos hidx] at h2
  omega

/-- Helper: whatever action `mutate_rbs_apply` draws from a pair list whose
head is substitution and whose members are enabled moves, the result is
tagged with a real move and differs from the input sequence. -/
theorem mutate_rbs_apply_changes (rng : RngS) (sequence : String) (min_length max_length : ℤ)
    (cw : List (String × ℚ)) (hs : sequence ≠ "")
    (hhead : ∃ w, cw.getD 0 ("", 0) = ("sub", w))
    (hmem : ∀ p ∈ cw, p.1 = "sub" ∨ (p.1 = "ins" ∧ (sequence.data.length : ℤ) < max_length) ∨
      (p.1 = "del" ∧ min_length < (sequence.data.length : ℤ))) :
    (mutate_rbs_apply rng sequence min_length max_length cw).1.2 ≠ "noop" ∧
    (mutate_rbs_apply rng sequence min_length max_length cw).1.1 ≠ sequence := by
  have hdata : sequence.data ≠ [] := by
    intro hd
    apply hs
    cases sequence
    simp_all
  have hlen : 0 < sequence.data.length := List.length_pos.mpr hdata
  have hcw : cw ≠ [] := by
    intro hnil
    obtain ⟨w, hw⟩ := hhead
    rw [hnil] at hw
    have h1 := congrArg Prod.fst hw
    simp at h1
  simp only [mutate_rbs_apply]
  set aw : String × RngS :=
    (if ((cw.map Prod.snd).foldr (· + ·) 0 : ℚ) ≤ 0 then ((cw.map Prod.fst).getD 0 "", rng)
     else (pick_weighted (cw.map Prod.fst) (cw.map Prod.snd) rng.random01.1, rng.random01.2))
    with haw
  have hact : aw.1 ∈ cw.map Prod.fst := by
    rw [haw]
    split_ifs
    · rcases cw with _ | ⟨c, rest⟩
      · exact absurd rfl hcw
      · simp
    · exact pick_weighted_mem _ _ _ (by simpa using hcw)
  obtain ⟨p, hp, hpeq⟩ := List.mem_map.mp hact
  rcases hmem p hp with hsub | ⟨hins, hguard⟩ | ⟨hdel, hguard⟩
  · have h : aw.1 = "sub" := hpeq.symm.trans hsub
    rw [if_pos h]
    refine ⟨by simp, ?_⟩
    exact string_set_replacement_ne _ _ (RngS.randrange_lt _ _ hlen) _
      (RngS.choice_mem _ _ _ (replacements_ne_nil _))
  · have h : aw.1 = "ins" := hpeq.symm.trans hins
    rw [if_neg (by simp [h]), if_pos h, if_pos hguard]
    refine ⟨by simp, ?_⟩
    exact string_insert_ne _ _ (Nat.lt_succ_iff.mp (RngS.randrange_lt _ _ (Nat.succ_pos _))) _
  · have h : aw.1 = "del" := hpeq.symm.trans hdel
    rw [if_neg (by simp [h]), if_neg (by simp [h]), if_pos h, if_pos hguard]
    refine ⟨by simp, ?_⟩
    exact string_erase_ne _ _ (RngS.randrange_lt _ _ hlen)

/-- Claim C9: on a non-empty sequence `mutate_rbs` never returns the tag
`"noop"` and its result always differs from the input — substitution is
never disabled and replaces a position with a different letter, while
insertion and deletion change the length.  Consequently the search loop's
identical-candidate rejection branch (line 1789) cannot fire after a
mutation of a non-empty incumbent. -/
theorem C9_mutation_changes (rng : RngS) (sequence : String) (min_length max_length : ℤ)
    (sub_weight ins_weight del_weight : ℚ) (hs : sequence ≠ "") :
    (mutate_rbs rng sequence min_length max_length sub_weight ins_weight del_weight).1.2 ≠
      "noop" ∧
    (mutate_rbs rng sequence min_length max_length sub_weight ins_weight del_weight).1.1 ≠
      sequence := by
  simp only [mutate_rbs, if_neg hs]
  by_cases h1 : ((sequence.data.length : ℤ) ≤ min_length) <;>
    by_cases h2 : ((sequence.data.length : ℤ) ≥ max_length)
  · rw [if_pos h1, if_pos h2]
    have hcw : ([("sub", sub_weight), ("ins", ins_weight), ("del", del_weight)].filter
        (fun p => p.1 ≠ "del")).filter (fun p => p.1 ≠ "ins") = [("sub", sub_weight)] := by
      simp [List.filter]
    rw [hcw, if_neg (by simp)]
    refine mutate_rbs_apply_changes rng sequence min_length max_length _ hs ⟨sub_weight, rfl⟩ ?_
    intro p hp
    simp only [List.mem_singleton] at hp
    subst hp
    exact Or.inl rfl
  · rw [if_pos h1, if_neg h2]
    have hcw : ([("sub", sub_weight), ("ins", ins_weight), ("del", del_weight)].filter
        (fun p => p.1 ≠ "del")) = [("sub", sub_weight), ("ins", ins_weight)] := by
      simp [List.filter]
    rw [hcw, if_neg (by simp)]
    refine mutate_rbs_apply_changes rng sequence min_length max_length _ hs ⟨sub_weight, rfl⟩ ?_
    intro p hp
    simp only [List.mem_cons, List.not_mem_nil, or_false] at hp
    rcases hp with hp | hp <;> subst hp
    · exact Or.inl rfl
    · exact Or.inr (Or.inl ⟨rfl, not_le.mp h2⟩)
  · rw [if_neg h1, if_pos h2]
    have hcw : ([("sub", sub_weight), ("ins", ins_weight), ("del", del_weight)].filter
        (fun p => p.1 ≠ "ins")) = [("sub", sub_weight), ("del", del_weight)] := by
      simp [List.filter]
    rw [hcw, if_neg (by simp)]
    refine mutate_rbs_apply_changes rng sequence min_length max_length _ hs ⟨sub_weight, rfl⟩ ?_
    intro p hp
    simp only [List.mem_cons, List.not_mem_nil, or_false] at hp
    rcases hp with hp | hp <;> subst hp
    · exact Or.inl rfl
    · exact Or.inr (Or.inr ⟨rfl, not_le.mp h1⟩)
  · rw [if_neg h1, if_neg h2, if_neg (by simp)]
    refine mutate_rbs_apply_changes rng sequence min_length max_length _ hs ⟨sub_weight, rfl⟩ ?_
    intro p hp
    simp only [List.mem_cons, List.not_mem_nil, or_false] at hp
    rcases hp with hp | hp | hp <;> subst hp
    · exact Or.inl rfl
    · exact Or.inr (Or.inl ⟨rfl, not_le.mp h2⟩)
    · exact Or.inr (Or.inr ⟨rfl, not_le.mp h1⟩)

/-- Witness for C9 on the concrete sequence `"AGGA"`. -/
theorem C9_mutation_changes_witness :
    (mutate_rbs rng0 "AGGA" 4 4 1 1 1).1.2 ≠ "noop" ∧
    (mutate_rbs rng0 "AGGA" 4 4 1 1 1).1.1 ≠ "AGGA" :=
  C9_mutation_changes rng0 "AGGA" 4 4 1 1 1 (by decide)

/-- Helper: the flank generator produces exactly the requested number of
bases. -/
theorem gen_bases_length (rng : RngS) (k : ℕ) : (gen_bases rng k).1.length = k := by
  induction k generalizing rng with
  | zero => rfl
  | succ n ih =>
    simp only [gen_bases, List.length_cons]
    rw [ih]

/-- Helper: `ljust` followed by the trim always yields the target length. -/
theorem ljust_trim_length (s : String) (n : ℕ) : (ljust_trim s n).length = n := by
  show ((s.data ++ List.replicate (n - s.data.length) 'A').take n).length = n
  rw [List.length_take, List.length_append, List.length_replicate]
  omega

/-- Helper: `randint` stays inside its bounds. -/
theorem randint_bounds (r : RngS) (a b : ℕ) (h : a ≤ b) :
    a ≤ (r.randint a b).1 ∧ (r.randint a b).1 ≤ b := by
  show a ≤ a + r.stream r.idx % (b + 1 - a) ∧ a + r.stream r.idx % (b + 1 - a) ≤ b
  have hpos : 0 < b + 1 - a := by omega
  have hlt := Nat.mod_lt (r.stream r.idx) hpos
  omega

/-- Helper: the length of a `String.mk`. -/
theorem string_mk_length (l : List Char) : (String.mk l).length = l.length := rfl

/-- Helper: `random_rbs` always returns a sequence whose length lies in the
clamped range `[max 4 min_length, max (max 4 min_length) max_length]`. -/
theorem random_rbs_length (rng : RngS) (min_length max_length : ℤ) (seed : String)
    (smin smax : ℕ) (cores : Option (List String)) :
    (max 4 min_length).toNat ≤ (random_rbs rng min_length max_length seed smin smax cores).1.length ∧
    (random_rbs rng min_length max_length seed smin smax cores).1.length ≤
      (max (max 4 min_length) max_length).toNat := by
  obtain ⟨hlo, hhi⟩ := randint_bounds rng (max 4 min_length).toNat
    (max (max 4 min_length) max_length).toNat (Int.toNat_le_toNat (le_max_left _ _))
  simp only [random_rbs]
  set len := (rng.randint (max 4 min_length).toNat (max (max 4 min_length) max_length).toNat).1
    with hlendef
  set rng1 := (rng.randint (max 4 min_length).toNat (max (max 4 min_length) max_length).toNat).2
    with hrng1def
  set cs : List String := if (cores.getD [DESIGN_SD_CORE]).filter (· ≠ "") = [] then
      [DESIGN_SD_CORE] else (cores.getD [DESIGN_SD_CORE]).filter (· ≠ "") with hcsdef
  set feasible := (List.range' smin (smax + 1 - smin)).filter
    (fun spacing => cs.any (fun core => core.length + spacing ≤ len)) with hfeasdef
  split_ifs with hfeas hval hseed
  · -- core placement branch, dead fallback for an empty valid list
    exfalso
    have hspmem : (rng1.choice feasible 0).1 ∈ feasible := RngS.choice_mem _ _ _ hfeas
    have hsp2 := (List.mem_filter.mp hspmem).2
    rw [List.any_eq_true] at hsp2
    obtain ⟨core0, hcore0, hfit0⟩ := hsp2
    exact List.ne_nil_of_mem (List.mem_filter.mpr ⟨hcore0, hfit0⟩) hval
  · -- core placement branch
    have hspmem : (rng1.choice feasible 0).1 ∈ feasible := RngS.choice_mem _ _ _ hfeas
    set spacing := (rng1.choice feasible 0).1 with hspdef
    have hvne : cs.filter (fun core => decide (core.length + spacing ≤ len)) ≠ [] := hval
    have hcmem := RngS.choice_mem (rng1.choice feasible 0).2
      (cs.filter (fun core => decide (core.length + spacing ≤ len))) "" hvne
    have hfit : ((rng1.choice feasible 0).2.choice
        (cs.filter (fun core => decide (core.length + spacing ≤ len))) "").1.length +
        spacing ≤ len := by
      have := (List.mem_filter.mp hcmem).2
      simpa using this
    rw [String.length_append, String.length_append]
    simp only [string_mk_length, gen_bases_length]
    omega
  · constructor <;> rw [ljust_trim_length] <;> assumption
  · constructor <;> rw [ljust_trim_length] <;> assumption

/-- Claim C10: out-of-range length bounds are silently clamped rather than
rejected — every generated sequence has length at least
`max 4 min_length ≥ 4` and at most the clamped maximum, and
`design_rbs_candidates` raises no error for out-of-range length bounds
(its only error is a non-positive target expression). -/
theorem C10_length_clamping :
    (∀ (rng : RngS) (min_length max_length : ℤ) (seed : String) (smin smax : ℕ)
        (cores : Option (List String)),
      4 ≤ (random_rbs rng min_length max_length seed smin smax cores).1.length ∧
      (max 4 min_length).toNat ≤
        (random_rbs rng min_length max_length seed smin smax cores).1.length ∧
      (random_rbs rng min_length max_length seed smin smax cores).1.length ≤
        (max (max 4 min_length) max_length).toNat) ∧
    (∀ (env : Env) (p : DesignParams), 0 < p.target_expression →
      ∃ r, design_rbs_candidates env p = Except.ok r) := by
  constructor
  · intro rng min_length max_length seed smin smax cores
    obtain ⟨hlo, hhi⟩ := random_rbs_length rng min_length max_length seed smin smax cores
    refine ⟨?_, hlo, hhi⟩
    have h4 : (4 : ℕ) ≤ (max 4 min_length).toNat := by
      have : (4 : ℤ) ≤ max 4 min_length := le_max_left _ _
      omega
    omega
  · intro env p htarget
    by_cases hI : p.iterations ≤ 0 ∨ p.top_n ≤ 0
    · simp only [design_rbs_candidates, if_pos hI]
      exact ⟨_, rfl⟩
    · simp only [design_rbs_candidates, if_neg hI, if_neg (not_le.mpr htarget)]
      exact ⟨_, rfl⟩

/-- Witness for C10: concrete clamped generation at `min_length = 1 < 4`,
and a successful run setup for a positive target. -/
theorem C10_length_clamping_witness :
    (4 ≤ (random_rbs rng0 1 2 "" 5 9 none).1.length) ∧
    (∃ r, design_rbs_candidates trivEnv p0 = Except.ok r) :=
  ⟨(C10_length_clamping.1 rng0 1 2 "" 5 9 none).1,
   C10_length_clamping.2 trivEnv p0 (by norm_num [p0])⟩

/-- Helper: every candidate kept by the dedup/filter/take loop passed the
rejection and positivity filters. -/
theorem select_unique_mem_props (n : ℕ) :
    ∀ (l : List Candidate) (seen : List String) (acc : List Candidate),
      (∀ c ∈ acc, c.rejected = false ∧ 0 < c.predicted_expression) →
      ∀ c ∈ select_unique n l seen acc,
        c.rejected = false ∧ 0 < c.predicted_expression := by
  intro l
  induction l with
  | nil =>
    intro seen acc hacc c hc
    simp only [select_unique] at hc
    exact hacc c (List.mem_reverse.mp hc)
  | cons d rest ih =>
    intro seen acc hacc c hc
    simp only [select_unique] at hc
    split_ifs at hc with hseen hemp hrej hlen
    · exact ih seen acc hacc c hc
    · exact ih seen acc hacc c hc
    · exact ih seen acc hacc c hc
    · have hd : d.rejected = false ∧ 0 < d.predicted_expression := by
        simp only [Bool.or_eq_true, decide_eq_true_eq, not_or] at hrej
        exact ⟨by simpa using hrej.1, lt_of_not_le hrej.2⟩
      rcases List.mem_cons.mp (List.mem_reverse.mp hc) with rfl | hmem
      · exact hd
      · exact hacc c hmem
    · have hd : d.rejected = false ∧ 0 < d.predicted_expression := by
        simp only [Bool.or_eq_true, decide_eq_true_eq, not_or] at hrej
        exact ⟨by simpa using hrej.1, lt_of_not_le hrej.2⟩
      refine ih _ _ ?_ c hc
      intro e he
      rcases List.mem_cons.mp he with rfl | he2
      · exact hd
      · exact hacc e he2

/-- Helper: the dedup/filter/take loop returns the flushed accumulator
followed by a sublist of its input. -/
theorem select_unique_split (n : ℕ) :
    ∀ (l : List Candidate) (seen : List String) (acc : List Candidate),
      ∃ s, select_unique n l seen acc = acc.reverse ++ s ∧ s.Sublist l := by
  intro l
  induction l with
  | nil =>
    intro seen acc
    exact ⟨[], by simp [select_unique], List.nil_sublist _⟩
  | cons d rest ih =>
    intro seen acc
    simp only [select_unique]
    split_ifs with hseen hemp hrej hlen
    · obtain ⟨s, hs, hsub⟩ := ih seen acc
      exact ⟨s, hs, hsub.cons d⟩
    · obtain ⟨s, hs, hsub⟩ := ih seen acc
      exact ⟨s, hs, hsub.cons d⟩
    · obtain ⟨s, hs, hsub⟩ := ih seen acc
      exact ⟨s, hs, hsub.cons d⟩
    · exact ⟨[d], by simp, (List.nil_sublist rest).cons₂ d⟩
    · obtain ⟨s, hs, hsub⟩ := ih (d.rbs_sequence :: seen) (d :: acc)
      refine ⟨d :: s, ?_, hsub.cons₂ d⟩
      rw [hs]
      simp

/-- Helper: the dedup/filter/take loop keeps at most `top_n` entries. -/
theorem select_unique_length_le (n : ℕ) :
    ∀ (l : List Candidate) (seen : List String) (acc : List Candidate),
      acc.length < n → (select_unique n l seen acc).length ≤ n := by
  intro l
  induction l with
  | nil =>
    intro seen acc h
    simp only [select_unique, List.length_reverse]
    omega
  | cons d rest ih =>
    intro seen acc h
    simp only [select_unique]
    split_ifs with hseen hemp hrej hlen
    · exact ih _ _ h
    · exact ih _ _ h
    · exact ih _ _ h
    · simp only [List.length_reverse, List.length_cons]
      omega
    · refine ih _ _ ?_
      simp only [List.length_cons] at hlen ⊢
      omega

/-- Helper: the dedup/filter/take loop never keeps two entries with the
same fragment. -/
theorem select_unique_nodup (n : ℕ) :
    ∀ (l : List Candidate) (seen : List String) (acc : List Candidate),
      (acc.map Candidate.rbs_sequence).Nodup →
      (∀ c ∈ acc, c.rbs_sequence ∈ seen) →
      ((select_unique n l seen acc).map Candidate.rbs_sequence).Nodup := by
  intro l
  induction l with
  | nil =>
    intro seen acc hnd hsub
    simp only [select_unique, List.map_reverse, List.nodup_reverse]
    exact hnd
  | cons d rest ih =>
    intro seen acc hnd hsub
    simp only [select_unique]
    split_ifs with hseen hemp hrej hlen
    · exact ih _ _ hnd hsub
    · exact ih _ _ hnd hsub
    · exact ih _ _ hnd hsub
    · simp only [List.map_reverse, List.nodup_reverse, List.map_cons, List.nodup_cons]
      refine ⟨?_, hnd⟩
      intro hmem
      obtain ⟨c, hc, hceq⟩ := List.mem_map.mp hmem
      exact hseen (hceq ▸ hsub c hc)
    · refine ih _ _ ?_ ?_
      · simp only [List.map_cons, List.nodup_cons]
        refine ⟨?_, hnd⟩
        intro hmem
        obtain ⟨c, hc, hceq⟩ := List.mem_map.mp hmem
        exact hseen (hceq ▸ hsub c hc)
      · intro c hc
        rcases List.mem_cons.mp hc with rfl | hc2
        · exact List.mem_cons_self _ _
        · exact List.mem_cons_of_mem _ (hsub c hc2)

/-- Helper: every ranked record over positive expressions and a positive
target reports the fold ratio `predicted / target`. -/
theorem make_ranked_from_fold (te : ℚ) (hte : 0 < te) :
    ∀ (l : List Candidate) (i : ℕ), (∀ c ∈ l, 0 < c.predicted_expression) →
      ∀ r ∈ make_ranked_from te i l,
        CandidateOutput.fold_ratio r = some (CandidateOutput.predicted_expression r / te) := by
  intro l
  induction l with
  | nil =>
    intro i _ r hr
    simp [make_ranked_from] at hr
  | cons c rest ih =>
    intro i hl r hr
    simp only [make_ranked_from] at hr
    rcases List.mem_cons.mp hr with rfl | hr2
    · show (if 0 < c.predicted_expression ∧ 0 < te then
          some (c.predicted_expression / te) else none) = some (c.predicted_expression / te)
      rw [if_pos ⟨hl c (List.mem_cons_self _ _), hte⟩]
    · exact ih (i + 1) (fun e he => hl e (List.mem_cons_of_mem _ he)) r hr2

/-- Claim C1: the ranked output (lines 1878-1890) contains only
non-rejected candidates with positive predicted expression, is
deduplicated by fragment, holds at most `top_n` entries, is sorted by
ascending error with ties broken by descending predicted expression
(`rank_le`), and every output record (lines 2097-2118) reports
`fold_ratio = predicted_expression / target_expression`. -/
theorem C1_ranked_output (l : List Candidate) (n : ℕ) (te : ℚ) (hn : 0 < n) (hte : 0 < te) :
    (∀ c ∈ rank_unique l n, c.rejected = false ∧ 0 < c.predicted_expression) ∧
    ((rank_unique l n).map Candidate.rbs_sequence).Nodup ∧
    (rank_unique l n).length ≤ n ∧
    (rank_unique l n).Pairwise rank_le ∧
    (∀ r ∈ make_ranked te (rank_unique l n),
      CandidateOutput.fold_ratio r = some (CandidateOutput.predicted_expression r / te)) := by
  refine ⟨?_, ?_, ?_, ?_, ?_⟩
  · intro c hc
    exact select_unique_mem_props n (sort_candidates l) [] [] (by simp) c hc
  · exact select_unique_nodup n (sort_candidates l) [] [] (by simp) (by simp)
  · exact select_unique_length_le n (sort_candidates l) [] [] (by simpa using hn)
  · obtain ⟨s, hs, hsub⟩ := select_unique_split n (sort_candidates l) [] []
    have hout : rank_unique l n = s := by
      rw [rank_unique, hs]
      simp
    have hsorted : (sort_candidates l).Pairwise rank_le :=
      List.sorted_insertionSort rank_le l
    rw [hout]
    exact hsorted.sublist hsub
  · intro r hr
    refine make_ranked_from_fold te hte (rank_unique l n) 1 ?_ r hr
    intro c hc
    exact (select_unique_mem_props n (sort_candidates l) [] [] (by simp) c hc).2

/-- Witness for C1 on a concrete candidate list with `top_n = 1` and
target expression 5. -/
theorem C1_ranked_output_witness :
    (∀ c ∈ rank_unique [c8_AGGA0, c8_CGGA, c8_CCGA] 1,
      c.rejected = false ∧ 0 < c.predicted_expression) ∧
    ((rank_unique [c8_AGGA0, c8_CGGA, c8_CCGA] 1).map Candidate.rbs_sequence).Nodup ∧
    (rank_unique [c8_AGGA0, c8_CGGA, c8_CCGA] 1).length ≤ 1 ∧
    (rank_unique [c8_AGGA0, c8_CGGA, c8_CCGA] 1).Pairwise rank_le ∧
    (∀ r ∈ make_ranked 5 (rank_unique [c8_AGGA0, c8_CGGA, c8_CCGA] 1),
      CandidateOutput.fold_ratio r = some (CandidateOutput.predicted_expression r / 5)) :=
  C1_ranked_output [c8_AGGA0, c8_CGGA, c8_CCGA] 1 5 (by norm_num) (by norm_num)

end RBSCal
